import Mathlib

/-!
Verification of the repunit-equation search program (`main.py`).

The program searches for solutions of R(x, m) = R(y, n), where
R(b, t) = (b^t - 1) / (b - 1), in three independent regimes:
a hash-sieve join (`check_nondiv_regime`), a direct enumeration over a
finite case list (`check_div_finite_cases`), and an exact-value bucket
search for n = 7 (`check_n7_div_regime`).

Python unbounded integers are modelled as `Nat`; the numpy `uint64`
vector kernels are modelled elementwise with explicit reduction mod 2^64;
the floating-point `math.sqrt` / `math.log` used by the threshold utility
are modelled as the exact real functions `Real.sqrt` / `Real.logb`.
-/

namespace Goormaghtigh

/-- Modulus `MOD1` (main.py line 15). -/
def MOD1 : Nat := 4294967291

/-- Modulus `MOD2` (main.py line 16). -/
def MOD2 : Nat := 4294967279

/-- Size of the unsigned 64-bit domain in which the numpy kernels compute. -/
def U64 : Nat := 2 ^ 64

/-- `repunit(a, t) = (a**t - 1) // (a - 1)` (main.py lines 19-20). -/
def repunit (a t : Nat) : Nat := (a ^ t - 1) / (a - 1)

/-- Geometric-sum (Horner) form of the repunit: 1 + b + ... + b^(t-1),
accumulated exactly as the incremental loop of `check_div_finite_cases`
grows its `val` (`val <- val * x + 1`). -/
def repuSum (b : Nat) : Nat → Nat
  | 0 => 0
  | t + 1 => repuSum b t * b + 1

/-- One step of the vectorized recurrence `row = (row * b + 1) % m`
(main.py line 30), with every elementary numpy operation reduced mod 2^64. -/
def rowNext (mod : Nat) (bases row : List Nat) : List Nat :=
  List.zipWith (fun r b => ((r * b) % U64 + 1) % U64 % mod) row bases

/-- The row of the residue table after `t` update steps; `rowAt bases mod 0`
is the all-ones initial row (main.py line 26). -/
def rowAt (bases : List Nat) (mod : Nat) : Nat → List Nat
  | 0 => bases.map fun _ => 1 % mod
  | t + 1 => rowNext mod bases (rowAt bases mod t)

/-- `build_repunit_tables` (main.py lines 23-32): row `i` (0-based) holds the
residues of the repunits of length `i+1` of every base. -/
def build_repunit_tables (bases : List Nat) (max_t mod : Nat) : List (List Nat) :=
  (List.range max_t).map (rowAt bases mod)

/-- The 64-bit packed key `r1 | (r2 << 32)` (main.py lines 45 and 65),
with the shift performed in uint64. -/
def packKey (r1 r2 : Nat) : Nat := r1 ||| ((r2 <<< 32) % U64)

/-- The packed key of entry `i` of the length-`t` rows of the two residue
tables built for `bases` (the scalar view of `t1[t-1] | (t2[t-1] << 32)`). -/
def tableKey (bases : List Nat) (max_t t i : Nat) : Nat :=
  packKey (((build_repunit_tables bases max_t MOD1).getD (t - 1) []).getD i 0)
    (((build_repunit_tables bases max_t MOD2).getD (t - 1) []).getD i 0)

/-- The mathematical value of the packed key of `(b, t)`: both residues of
the exact repunit, packed. -/
def keyOf (b t : Nat) : Nat := packKey (repuSum b t % MOD1) (repuSum b t % MOD2)

/-- `build_y_n_map` (main.py lines 35-48), modelled extensionally: the
dict-of-lists is the function sending a key to the list of `(y, n)` pairs
whose packed key equals it, in insertion order (`n` outer, `y` inner). -/
def build_y_n_map (y_min y_max n_min n_max : Nat) (key : Nat) : List (Nat × Nat) :=
  ((List.range' n_min (n_max + 1 - n_min)).flatMap fun n =>
    (List.range' y_min (y_max + 1 - y_min)).map fun y => (y, n)).filter
    fun p => tableKey (List.range' y_min (y_max + 1 - y_min)) n_max p.2 (p.1 - y_min) == key

/-- `find_nondiv_solutions` (main.py lines 51-79). -/
def find_nondiv_solutions (x_min x_max m_min m_max : Nat)
    (y_n_map : Nat → List (Nat × Nat)) : List (Nat × Nat × Nat × Nat) :=
  (List.range' m_min (m_max + 1 - m_min)).flatMap fun m =>
    (List.range (List.range' x_min (x_max + 1 - x_min)).length).flatMap fun i =>
      let x := (List.range' x_min (x_max + 1 - x_min)).getD i 0
      (y_n_map (tableKey (List.range' x_min (x_max + 1 - x_min)) m_max m i)).filterMap
        fun p =>
          if x < p.1 ∧ p.2 < m ∧ (m - 1) % (p.2 - 1) ≠ 0 ∧ repunit x m = repunit p.1 p.2
          then some (x, p.1, m, p.2) else none

/-- `check_nondiv_regime` (main.py lines 82-84). -/
def check_nondiv_regime : List (Nat × Nat × Nat × Nat) :=
  find_nondiv_solutions 2 315 5 4197 (build_y_n_map 3 316 4 503)

/-- The static case list of `check_div_finite_cases` (main.py lines 88-98). -/
def div_cases : List (Nat × Nat) :=
  ((List.range' 13 18).map fun k => (k, 3)) ++
    (([(5, 5), (8, 6), (10, 7), (12, 7)] : List (Nat × Nat)).flatMap fun c =>
      (List.range' 3 (c.2 - 2)).map fun y => (c.1, y)) ++
    [(7, 3), (9, 3)]

/-- The incremental growth loop of `check_div_finite_cases`
(main.py lines 105-118), with an explicit fuel argument bounding the number
of iterations of the `while val < target` loop.  `none` means the fuel ran
out with the loop still running; `some none` means the loop exited without a
match (`val` reached `target` without equality under a valid `m`, or the
`m > 512` safety cap fired); `some (some m)` means `val == target` was hit at
exponent `m` under the side constraints, i.e. the tuple is emitted. -/
def growLoop (x target n k : Nat) : Nat → Nat → Nat → Option (Option Nat)
  | 0, val, _ => if val < target then none else some none
  | fuel + 1, val, m =>
    if val < target then
      if m + 1 ≤ n then growLoop x target n k fuel (val * x + 1) (m + 1)
      else if (m + 1 - 1) % k ≠ 0 then growLoop x target n k fuel (val * x + 1) (m + 1)
      else if val * x + 1 = target then some (some (m + 1))
      else if 512 < m + 1 then some none
      else growLoop x target n k fuel (val * x + 1) (m + 1)
    else some none

/-- Fuel used to run `growLoop`; large enough that the loop always exits on
its own for every configured case (proved below). -/
def growFuel : Nat := 600

/-- `check_div_finite_cases` (main.py lines 87-119). -/
def check_div_finite_cases : List (Nat × Nat × Nat × Nat) :=
  div_cases.flatMap fun c =>
    (List.range' 2 (c.2 - 2)).filterMap fun x =>
      match growLoop x (repunit c.2 (c.1 + 1)) (c.1 + 1) c.1 growFuel 1 1 with
      | some (some m) => some (x, c.2, m, c.1 + 1)
      | _ => none

/-- The predicate `math.sqrt(y) < 6.0 * math.log(y, 2)` (main.py line 125),
with the floating-point functions modelled as the exact real ones. -/
noncomputable def sqrtLog2Cond (y : Nat) : Prop :=
  Real.sqrt y < 6 * Real.logb 2 y

open Classical in
/-- `largest_y_with_sqrt_lt_6log2` (main.py lines 122-127): scan
`y = 2 .. limit` keeping the last `y` satisfying the predicate. -/
noncomputable def largest_y_with_sqrt_lt_6log2 (limit : Nat) : Nat :=
  (List.range' 2 (limit - 1)).foldl (fun best y => if sqrtLog2Cond y then y else best) 0

/-- `m_max = int(math.floor(math.log(7 * y_max**6, 2))) + 1` (main.py
line 136); the floor of the real base-2 logarithm of a positive integer is
`Nat.log2`. -/
def n7_m_max (y_max : Nat) : Nat := Nat.log2 (7 * y_max ^ 6) + 1

/-- The self-check of `check_n7_div_regime` (main.py lines 132-138) as a
function of the computed `y_max`: `some msg` models raising
`RuntimeError(msg)`, `none` means both checks pass. -/
def n7_selfcheck (y_max : Nat) : Option String :=
  if y_max ≠ 5575 then some ("unexpected threshold y_max=" ++ toString y_max)
  else if n7_m_max y_max ≠ 78 then some ("unexpected m_max=" ++ toString (n7_m_max y_max))
  else none

/-- `valid_ms = [6*t+1 for t in range(2, (m_max-1)//6 + 1)]`
(main.py line 140). -/
def valid_ms (m_max : Nat) : List Nat :=
  (List.range' 2 ((m_max - 1) / 6 + 1 - 2)).map fun t => 6 * t + 1

/-- The `(x, m)` enumeration feeding the exact-value bucket map of
`check_n7_div_regime` (main.py lines 143-145), in insertion order. -/
def n7_pairs (y_max m_max : Nat) : List (Nat × Nat) :=
  (List.range' 2 (y_max - 2)).flatMap fun x => (valid_ms m_max).map fun m => (x, m)

/-- The exact-value bucket map `by_value` (main.py lines 142-145), modelled
extensionally: the bucket of `v` is the list of inserted pairs whose exact
repunit value equals `v`, in insertion order. -/
def by_value (y_max m_max : Nat) (v : Nat) : List (Nat × Nat) :=
  (n7_pairs y_max m_max).filter fun p => repunit p.1 p.2 == v

/-- The search phase of `check_n7_div_regime` (main.py lines 147-153). -/
def n7_solutions (y_max m_max : Nat) : List (Nat × Nat × Nat × Nat) :=
  (List.range' 3 (y_max - 2)).flatMap fun y =>
    (by_value y_max m_max (repunit y 7)).filterMap fun p =>
      if p.1 < y ∧ 7 < p.2 ∧ (p.2 - 1) % 6 = 0 then some (p.1, y, p.2, 7) else none

/-- `check_n7_div_regime` (main.py lines 130-153); `Except.error` models the
`RuntimeError` raised when a self-check fails. -/
noncomputable def check_n7_div_regime : Except String (List (Nat × Nat × Nat × Nat)) :=
  match n7_selfcheck (largest_y_with_sqrt_lt_6log2 20000) with
  | some msg => Except.error msg
  | none =>
    Except.ok (n7_solutions (largest_y_with_sqrt_lt_6log2 20000)
      (n7_m_max (largest_y_with_sqrt_lt_6log2 20000)))

/-! ### Arithmetic facts about `repunit` and `repuSum` -/

lemma sub_one_mul_repuSum (a : Nat) (ha : 1 ≤ a) : ∀ t, (a - 1) * repuSum a t = a ^ t - 1 := by
  intro t
  induction t with
  | zero => simp [repuSum]
  | succ t ih =>
    have hp : 1 ≤ a ^ t := Nat.one_le_pow _ _ (by omega)
    have hle : a ≤ a ^ t * a := Nat.le_mul_of_pos_left a (by omega)
    calc (a - 1) * (repuSum a t * a + 1)
        = (a - 1) * repuSum a t * a + (a - 1) := by ring
      _ = (a ^ t - 1) * a + (a - 1) := by rw [ih]
      _ = a ^ t * a - a + (a - 1) := by rw [Nat.sub_mul, Nat.one_mul]
      _ = a ^ (t + 1) - 1 := by rw [pow_succ]; omega

lemma repunit_eq_repuSum (a t : Nat) (ha : 2 ≤ a) : repunit a t = repuSum a t := by
  unfold repunit
  rw [← sub_one_mul_repuSum a (by omega) t]
  exact Nat.mul_div_cancel_left _ (by omega)

lemma keyOf_congr {x m y n : Nat} (h : repuSum x m = repuSum y n) : keyOf x m = keyOf y n := by
  unfold keyOf
  rw [h]

/-! ### Entries of the vectorized residue tables -/

lemma mod_mul_add_one_mod (S b mod : Nat) :
    (S % mod * b + 1) % mod = (S * b + 1) % mod := by
  conv_lhs => rw [Nat.add_mod, Nat.mul_mod, Nat.mod_mod_of_dvd S dvd_rfl,
    ← Nat.mul_mod, ← Nat.add_mod]

lemma rowAt_getElem? {bases : List Nat} {mod i b : Nat}
    (hb : bases[i]? = some b) (hb32 : b ≤ 2 ^ 32)
    (hmod : 0 < mod) (hmod32 : mod ≤ 2 ^ 32) :
    ∀ t, (rowAt bases mod t)[i]? = some (repuSum b (t + 1) % mod) := by
  intro t
  induction t with
  | zero =>
    simp only [rowAt, List.getElem?_map, hb, Option.map_some']
    simp [repuSum]
  | succ t ih =>
    simp only [rowAt, rowNext, List.getElem?_zipWith, ih, hb]
    have hr : repuSum b (t + 1) % mod < mod := Nat.mod_lt _ hmod
    have hmul : repuSum b (t + 1) % mod * b ≤ (2 ^ 32 - 1) * 2 ^ 32 :=
      Nat.mul_le_mul (by omega) hb32
    have h0 : repuSum b (t + 1) % mod * b < U64 := by unfold U64; omega
    have h1 : repuSum b (t + 1) % mod * b + 1 < U64 := by unfold U64; omega
    rw [Nat.mod_eq_of_lt h0, Nat.mod_eq_of_lt h1, mod_mul_add_one_mod]
    rfl

lemma build_repunit_tables_row (bases : List Nat) (max_t mod t : Nat) (h : t - 1 < max_t) :
    (build_repunit_tables bases max_t mod).getD (t - 1) [] = rowAt bases mod (t - 1) := by
  unfold build_repunit_tables
  rw [List.getD_eq_getElem?_getD, List.getElem?_map, List.getElem?_range h]
  rfl

lemma tableKey_eq_keyOf {bases : List Nat} {max_t t i b : Nat}
    (hb : bases[i]? = some b) (hb32 : b ≤ 2 ^ 32) (ht1 : 1 ≤ t) (ht : t ≤ max_t) :
    tableKey bases max_t t i = keyOf b t := by
  have hrow1 := build_repunit_tables_row bases max_t MOD1 t (by omega)
  have hrow2 := build_repunit_tables_row bases max_t MOD2 t (by omega)
  have hm1 : (0 : Nat) < MOD1 ∧ MOD1 ≤ 2 ^ 32 := by unfold MOD1; omega
  have hm2 : (0 : Nat) < MOD2 ∧ MOD2 ≤ 2 ^ 32 := by unfold MOD2; omega
  have e1 := rowAt_getElem? hb hb32 hm1.1 hm1.2 (t - 1)
  have e2 := rowAt_getElem? hb hb32 hm2.1 hm2.2 (t - 1)
  have htt : t - 1 + 1 = t := by omega
  rw [htt] at e1 e2
  unfold tableKey keyOf
  rw [hrow1, hrow2, List.getD_eq_getElem?_getD, List.getD_eq_getElem?_getD, e1, e2]
  rfl

lemma range'_getElem? {lo len i : Nat} (h : i < len) :
    (List.range' lo len)[i]? = some (lo + i) := by
  rw [List.getElem?_range' lo 1 h]
  simp

lemma range'_getD {lo len i : Nat} (h : i < len) :
    (List.range' lo len).getD i 0 = lo + i := by
  rw [List.getD_eq_getElem?_getD, range'_getElem? h]
  rfl

/-! ### The candidate index and the sieve-join driver -/

lemma ynKey_eq {y n : Nat} (hy1 : 3 ≤ y) (hy2 : y ≤ 316) (hn1 : 1 ≤ n) (hn2 : n ≤ 503) :
    tableKey (List.range' 3 (316 + 1 - 3)) 503 n (y - 3) = keyOf y n := by
  have h : y - 3 < 316 + 1 - 3 := by omega
  have hb : (List.range' 3 (316 + 1 - 3))[y - 3]? = some y := by
    rw [range'_getElem? h]
    congr 1
    omega
  exact tableKey_eq_keyOf hb (by omega) hn1 hn2

lemma xsKey_eq {x m : Nat} (hx1 : 2 ≤ x) (hx2 : x ≤ 315) (hm1 : 1 ≤ m) (hm2 : m ≤ 4197) :
    tableKey (List.range' 2 (315 + 1 - 2)) 4197 m (x - 2) = keyOf x m := by
  have h : x - 2 < 315 + 1 - 2 := by omega
  have hb : (List.range' 2 (315 + 1 - 2))[x - 2]? = some x := by
    rw [range'_getElem? h]
    congr 1
    omega
  exact tableKey_eq_keyOf hb (by omega) hm1 hm2

lemma mem_build_y_n_map {y n key : Nat} :
    (y, n) ∈ build_y_n_map 3 316 4 503 key ↔
      (3 ≤ y ∧ y ≤ 316 ∧ 4 ≤ n ∧ n ≤ 503 ∧ keyOf y n = key) := by
  unfold build_y_n_map
  rw [List.mem_filter]
  constructor
  · rintro ⟨hmem, hkey⟩
    rw [List.mem_flatMap] at hmem
    obtain ⟨n', hn', hmem⟩ := hmem
    rw [List.mem_map] at hmem
    obtain ⟨y', hy', heq⟩ := hmem
    injection heq with h1 h2
    subst h1
    subst h2
    rw [List.mem_range'_1] at hn' hy'
    simp only [beq_iff_eq] at hkey
    rw [ynKey_eq hy'.1 (by omega) (by omega) (by omega)] at hkey
    exact ⟨hy'.1, by omega, hn'.1, by omega, hkey⟩
  · rintro ⟨hy1, hy2, hn1, hn2, hkey⟩
    refine ⟨?_, ?_⟩
    · rw [List.mem_flatMap]
      refine ⟨n, by rw [List.mem_range'_1]; omega, ?_⟩
      rw [List.mem_map]
      exact ⟨y, by rw [List.mem_range'_1]; omega, rfl⟩
    · simp only [beq_iff_eq]
      rw [ynKey_eq hy1 hy2 (by omega) hn2]
      exact hkey

lemma mem_check_nondiv {x y m n : Nat} :
    (x, y, m, n) ∈ check_nondiv_regime ↔
      (2 ≤ x ∧ x ≤ 315 ∧ 3 ≤ y ∧ y ≤ 316 ∧ 5 ≤ m ∧ m ≤ 4197 ∧ 4 ≤ n ∧ n ≤ 503 ∧
       x < y ∧ n < m ∧ (m - 1) % (n - 1) ≠ 0 ∧ repunit x m = repunit y n) := by
  unfold check_nondiv_regime find_nondiv_solutions
  rw [List.mem_flatMap]
  constructor
  · rintro ⟨m', hm', hmem⟩
    rw [List.mem_range'_1] at hm'
    rw [List.mem_flatMap] at hmem
    obtain ⟨i, hi, hmem⟩ := hmem
    rw [List.mem_range, List.length_range'] at hi
    simp only at hmem
    rw [range'_getD hi, List.mem_filterMap] at hmem
    obtain ⟨p, hp, hsome⟩ := hmem
    rw [mem_build_y_n_map (y := p.1) (n := p.2)] at hp
    by_cases hcond : 2 + i < p.1 ∧ p.2 < m' ∧ (m' - 1) % (p.2 - 1) ≠ 0 ∧
        repunit (2 + i) m' = repunit p.1 p.2
    · rw [if_pos hcond] at hsome
      simp only [Option.some.injEq, Prod.mk.injEq] at hsome
      obtain ⟨hx', hy', hm'', hn'⟩ := hsome
      refine ⟨by omega, by omega, by omega, by omega, by omega, by omega, by omega, by omega,
        by omega, by omega, ?_, ?_⟩
      · rw [← hm'', ← hn']
        exact hcond.2.2.1
      · rw [← hx', ← hy', ← hm'', ← hn']
        exact hcond.2.2.2
    · rw [if_neg hcond] at hsome
      exact absurd hsome (by simp)
  · rintro ⟨hx1, hx2, hy1, hy2, hm1, hm2, hn1, hn2, hxy, hnm, hmod, heq⟩
    refine ⟨m, by rw [List.mem_range'_1]; omega, ?_⟩
    rw [List.mem_flatMap]
    refine ⟨x - 2, by rw [List.mem_range, List.length_range']; omega, ?_⟩
    simp only
    rw [range'_getD (by omega : x - 2 < 315 + 1 - 2), List.mem_filterMap]
    have hxv : 2 + (x - 2) = x := by omega
    rw [hxv]
    refine ⟨(y, n), ?_, ?_⟩
    · rw [mem_build_y_n_map (y := y) (n := n)]
      refine ⟨hy1, hy2, hn1, hn2, ?_⟩
      rw [xsKey_eq hx1 hx2 (by omega) hm2]
      refine (keyOf_congr ?_).symm
      rw [← repunit_eq_repuSum x m hx1, ← repunit_eq_repuSum y n (by omega), heq]
    · rw [if_pos ⟨hxy, hnm, hmod, heq⟩]

/-! ### The incremental-growth loop of the finite divisibility cases -/

lemma growLoop_ne_none {x target n k : Nat} (hx : 2 ≤ x) :
    ∀ fuel val m, target < (val + 1) * 2 ^ fuel → growLoop x target n k fuel val m ≠ none := by
  intro fuel
  induction fuel with
  | zero =>
    intro val m h
    rw [pow_zero, mul_one] at h
    simp only [growLoop]
    rw [if_neg (by omega)]
    simp
  | succ fuel ih =>
    intro val m h
    simp only [growLoop]
    by_cases hvt : val < target
    · have hgrow : target < (val * x + 1 + 1) * 2 ^ fuel := by
        have h2 : val * 2 ≤ val * x := Nat.mul_le_mul_left val hx
        have he : (val + 1) * 2 ^ (fuel + 1) = (val * 2 + 2) * 2 ^ fuel := by ring
        have hle : (val * 2 + 2) * 2 ^ fuel ≤ (val * x + 1 + 1) * 2 ^ fuel :=
          Nat.mul_le_mul_right _ (by omega)
        omega
      rw [if_pos hvt]
      by_cases h1 : m + 1 ≤ n
      · rw [if_pos h1]
        exact ih _ _ hgrow
      · rw [if_neg h1]
        by_cases h2 : (m + 1 - 1) % k ≠ 0
        · rw [if_pos h2]
          exact ih _ _ hgrow
        · rw [if_neg h2]
          by_cases h3 : val * x + 1 = target
          · rw [if_pos h3]
            simp
          · rw [if_neg h3]
            by_cases h4 : 512 < m + 1
            · rw [if_pos h4]
              simp
            · rw [if_neg h4]
              exact ih _ _ hgrow
    · rw [if_neg hvt]
      simp

lemma growLoop_spec {x target n k : Nat} :
    ∀ fuel val m M, growLoop x target n k fuel val m = some (some M) →
      val = repuSum x m → n < M ∧ (M - 1) % k = 0 ∧ repuSum x M = target ∧ m < M := by
  intro fuel
  induction fuel with
  | zero =>
    intro val m M h _
    simp only [growLoop] at h
    by_cases hvt : val < target
    · rw [if_pos hvt] at h
      exact absurd h (by simp)
    · rw [if_neg hvt] at h
      exact absurd h (by simp)
  | succ fuel ih =>
    intro val m M h hval
    simp only [growLoop] at h
    by_cases hvt : val < target
    · rw [if_pos hvt] at h
      have hval' : val * x + 1 = repuSum x (m + 1) := by rw [hval]; rfl
      by_cases h1 : m + 1 ≤ n
      · rw [if_pos h1] at h
        have hs := ih _ _ _ h hval'
        exact ⟨hs.1, hs.2.1, hs.2.2.1, by omega⟩
      · rw [if_neg h1] at h
        by_cases h2 : (m + 1 - 1) % k ≠ 0
        · rw [if_pos h2] at h
          have hs := ih _ _ _ h hval'
          exact ⟨hs.1, hs.2.1, hs.2.2.1, by omega⟩
        · rw [if_neg h2] at h
          by_cases h3 : val * x + 1 = target
          · rw [if_pos h3] at h
            simp only [Option.some.injEq] at h
            subst h
            refine ⟨by omega, not_not.mp h2, ?_, by omega⟩
            rw [← hval']
            exact h3
          · rw [if_neg h3] at h
            by_cases h4 : 512 < m + 1
            · rw [if_pos h4] at h
              exact absurd h (by simp)
            · rw [if_neg h4] at h
              have hs := ih _ _ _ h hval'
              exact ⟨hs.1, hs.2.1, hs.2.2.1, by omega⟩
    · rw [if_neg hvt] at h
      exact absurd h (by simp)

lemma div_cases_bound : ∀ c ∈ div_cases, c.2 ≤ 7 ∧ c.1 ≤ 30 ∧ 3 ≤ c.2 := by decide

lemma repunit_le (a t : Nat) : repunit a t ≤ a ^ t :=
  le_trans (Nat.div_le_self _ _) (Nat.sub_le _ _)

lemma mem_check_div_finite {x y m n : Nat} (h : (x, y, m, n) ∈ check_div_finite_cases) :
    2 ≤ x ∧ x < y ∧ n < m ∧ (m - 1) % (n - 1) = 0 ∧ repunit x m = repunit y n := by
  unfold check_div_finite_cases at h
  rw [List.mem_flatMap] at h
  obtain ⟨c, hc, h⟩ := h
  have hcb := div_cases_bound c hc
  rw [List.mem_filterMap] at h
  obtain ⟨x', hx', hsome⟩ := h
  rw [List.mem_range'_1] at hx'
  cases hg : growLoop x' (repunit c.2 (c.1 + 1)) (c.1 + 1) c.1 growFuel 1 1 with
  | none =>
    rw [hg] at hsome
    exact absurd hsome (by simp)
  | some o =>
    cases o with
    | none =>
      rw [hg] at hsome
      exact absurd hsome (by simp)
    | some M =>
      rw [hg] at hsome
      simp only [Option.some.injEq, Prod.mk.injEq] at hsome
      obtain ⟨rfl, rfl, rfl, rfl⟩ := hsome
      have hspec := growLoop_spec growFuel 1 1 M hg (by simp [repuSum])
      refine ⟨by omega, by omega, by omega, ?_, ?_⟩
      · have he : c.1 + 1 - 1 = c.1 := by omega
        rw [he]
        exact hspec.2.1
      · rw [repunit_eq_repuSum _ _ (by omega)]
        exact hspec.2.2.1

/-! ### The exact-value bucket driver of the n = 7 regime -/

lemma mem_valid_ms {m : Nat} : m ∈ valid_ms 78 ↔ ((m - 1) % 6 = 0 ∧ 13 ≤ m ∧ m ≤ 73) := by
  unfold valid_ms
  rw [List.mem_map]
  constructor
  · rintro ⟨t, ht, rfl⟩
    rw [List.mem_range'_1] at ht
    omega
  · rintro ⟨h1, h2, h3⟩
    refine ⟨(m - 1) / 6, ?_, by omega⟩
    rw [List.mem_range'_1]
    omega

lemma mem_n7_pairs {x m : Nat} :
    (x, m) ∈ n7_pairs 5575 78 ↔ (2 ≤ x ∧ x < 5575 ∧ m ∈ valid_ms 78) := by
  unfold n7_pairs
  rw [List.mem_flatMap]
  constructor
  · rintro ⟨x', hx', hmem⟩
    rw [List.mem_map] at hmem
    obtain ⟨m', hm', heq⟩ := hmem
    injection heq with h1 h2
    subst h1
    subst h2
    rw [List.mem_range'_1] at hx'
    exact ⟨hx'.1, by omega, hm'⟩
  · rintro ⟨hx1, hx2, hm⟩
    refine ⟨x, by rw [List.mem_range'_1]; omega, ?_⟩
    rw [List.mem_map]
    exact ⟨m, hm, rfl⟩

lemma mem_by_value {x m v : Nat} :
    (x, m) ∈ by_value 5575 78 v ↔ ((x, m) ∈ n7_pairs 5575 78 ∧ repunit x m = v) := by
  unfold by_value
  rw [List.mem_filter]
  simp only [beq_iff_eq]

lemma mem_n7_solutions {x y m n : Nat} :
    (x, y, m, n) ∈ n7_solutions 5575 78 ↔
      (n = 7 ∧ 2 ≤ x ∧ x < 5575 ∧ 3 ≤ y ∧ y ≤ 5575 ∧ 13 ≤ m ∧ m ≤ 73 ∧
       (m - 1) % 6 = 0 ∧ x < y ∧ 7 < m ∧ repunit x m = repunit y 7) := by
  unfold n7_solutions
  rw [List.mem_flatMap]
  constructor
  · rintro ⟨y', hy', hmem⟩
    rw [List.mem_range'_1] at hy'
    rw [List.mem_filterMap] at hmem
    obtain ⟨p, hp, hsome⟩ := hmem
    by_cases hcond : p.1 < y' ∧ 7 < p.2 ∧ (p.2 - 1) % 6 = 0
    · rw [if_pos hcond] at hsome
      simp only [Option.some.injEq, Prod.mk.injEq] at hsome
      obtain ⟨hx', hy'', hm', hn'⟩ := hsome
      rw [← Prod.mk.eta (p := p), mem_by_value] at hp
      obtain ⟨hpair, hval⟩ := hp
      rw [mem_n7_pairs] at hpair
      obtain ⟨hm13, hm73⟩ := (mem_valid_ms.mp hpair.2.2).2
      refine ⟨by omega, by omega, by omega, by omega, by omega, by omega, by omega,
        by omega, by omega, by omega, ?_⟩
      rw [← hx', ← hm', ← hy'']
      exact hval
    · rw [if_neg hcond] at hsome
      exact absurd hsome (by simp)
  · rintro ⟨rfl, hx2, hx5, hy3, hy5, hm13, hm73, hmod, hxy, h7m, heq⟩
    refine ⟨y, by rw [List.mem_range'_1]; omega, ?_⟩
    rw [List.mem_filterMap]
    refine ⟨(x, m), ?_, ?_⟩
    · rw [mem_by_value]
      exact ⟨mem_n7_pairs.mpr ⟨hx2, hx5, mem_valid_ms.mpr ⟨hmod, hm13, hm73⟩⟩, heq⟩
    · rw [if_pos ⟨hxy, h7m, hmod⟩]

/-! ### The threshold utility: sqrt(y) < 6 log2(y) -/

set_option maxRecDepth 1000000 in
lemma pow_fact1 : (2 : Nat) ^ 37333 ≤ 5575 ^ 3000 := by norm_num

set_option maxRecDepth 1000000 in
lemma pow_fact2 : (5576 : Nat) ^ 375 ≤ 2 ^ 4667 := by norm_num

lemma logb2_ge {b : ℝ} {p q : Nat} (_hb : 0 < b) (hq : 0 < q)
    (h : (2 : ℝ) ^ p ≤ b ^ q) : (p : ℝ) / (q : ℝ) ≤ Real.logb 2 b := by
  rw [Real.logb, div_le_div_iff (by exact_mod_cast hq) (Real.log_pos (by norm_num))]
  have hlog := Real.log_le_log (by positivity) h
  rw [Real.log_pow, Real.log_pow] at hlog
  linarith

lemma logb2_le {b : ℝ} {p q : Nat} (hb : 0 < b) (hq : 0 < q)
    (h : b ^ q ≤ (2 : ℝ) ^ p) : Real.logb 2 b ≤ (p : ℝ) / (q : ℝ) := by
  rw [Real.logb, div_le_div_iff (Real.log_pos (by norm_num)) (by exact_mod_cast hq)]
  have hlog := Real.log_le_log (by positivity) h
  rw [Real.log_pow, Real.log_pow] at hlog
  linarith

lemma sqrtLog2Cond_5575 : sqrtLog2Cond 5575 := by
  unfold sqrtLog2Cond
  push_cast
  have h1 : Real.sqrt 5575 < 74666 / 1000 := by
    rw [Real.sqrt_lt' (by norm_num)]
    norm_num
  have h2 : (37333 : ℝ) / 3000 ≤ Real.logb 2 5575 := by
    have hc : (2 : ℝ) ^ (37333 : Nat) ≤ (5575 : ℝ) ^ (3000 : Nat) := by
      exact_mod_cast pow_fact1
    have := logb2_ge (by norm_num) (by norm_num) hc
    norm_num at this
    exact this
  linarith

lemma not_sqrtLog2Cond {y : Nat} (h1 : 5576 ≤ y) (h2 : y ≤ 20000) : ¬ sqrtLog2Cond y := by
  unfold sqrtLog2Cond
  rw [not_lt]
  have hY1 : (5576 : ℝ) ≤ (y : ℝ) := by exact_mod_cast h1
  have hY2 : (y : ℝ) ≤ 20000 := by exact_mod_cast h2
  have hYpos : (0 : ℝ) < (y : ℝ) := by linarith
  have hlog2 : (0.6931471803 : ℝ) < Real.log 2 := Real.log_two_gt_d9
  -- logb 2 5576 ≤ 4667/375
  have hb : Real.logb 2 5576 ≤ (4667 : ℝ) / 375 := by
    have hc : (5576 : ℝ) ^ (375 : Nat) ≤ (2 : ℝ) ^ (4667 : Nat) := by
      exact_mod_cast pow_fact2
    have := logb2_le (by norm_num) (by norm_num) hc
    norm_num at this
    exact this
  -- concavity bound: logb 2 y ≤ logb 2 5576 + (y/5576 - 1)/log 2
  have hsplit : Real.log (y : ℝ) = Real.log 5576 + Real.log ((y : ℝ) / 5576) := by
    rw [Real.log_div (by linarith) (by norm_num)]
    ring
  have htangent : Real.log ((y : ℝ) / 5576) ≤ (y : ℝ) / 5576 - 1 :=
    Real.log_le_sub_one_of_pos (div_pos hYpos (by norm_num))
  have hlogb : Real.logb 2 (y : ℝ) ≤ Real.logb 2 5576 + ((y : ℝ) / 5576 - 1) / Real.log 2 := by
    rw [Real.logb, Real.logb, hsplit, add_div]
    exact add_le_add_left ((div_le_div_right (Real.log_pos (by norm_num))).mpr htangent) _
  -- linear-vs-sqrt comparison
  have hs1 : (74672 : ℝ) / 1000 ≤ Real.sqrt 5576 := by
    rw [Real.le_sqrt (by norm_num) (by norm_num)]
    norm_num
  have hsY142 : Real.sqrt (y : ℝ) ≤ 142 := by
    calc Real.sqrt (y : ℝ) ≤ Real.sqrt ((142 : ℝ) ^ 2) := Real.sqrt_le_sqrt (by norm_num; linarith)
      _ = 142 := Real.sqrt_sq (by norm_num)
  have hs5142 : Real.sqrt 5576 ≤ 142 := by
    calc Real.sqrt (5576 : ℝ) ≤ Real.sqrt ((142 : ℝ) ^ 2) := Real.sqrt_le_sqrt (by norm_num)
      _ = 142 := Real.sqrt_sq (by norm_num)
  have hmono : Real.sqrt 5576 ≤ Real.sqrt (y : ℝ) := Real.sqrt_le_sqrt hY1
  have hfact : (Real.sqrt (y : ℝ) - Real.sqrt 5576) * (Real.sqrt (y : ℝ) + Real.sqrt 5576) =
      (y : ℝ) - 5576 := by
    have e1 : Real.sqrt (y : ℝ) ^ 2 = (y : ℝ) := Real.sq_sqrt (le_of_lt hYpos)
    have e2 : Real.sqrt (5576 : ℝ) ^ 2 = 5576 := Real.sq_sqrt (by norm_num)
    linear_combination e1 - e2
  have hstep : ((y : ℝ) - 5576) / 284 ≤ Real.sqrt (y : ℝ) - Real.sqrt 5576 := by
    rw [div_le_iff (by norm_num : (0 : ℝ) < 284)]
    calc (y : ℝ) - 5576
        = (Real.sqrt (y : ℝ) - Real.sqrt 5576) * (Real.sqrt (y : ℝ) + Real.sqrt 5576) :=
          hfact.symm
      _ ≤ (Real.sqrt (y : ℝ) - Real.sqrt 5576) * 284 :=
          mul_le_mul_of_nonneg_left (by linarith) (by linarith)
  -- the slope bound
  have hslope : 6 * (((y : ℝ) / 5576 - 1) / Real.log 2) ≤ ((y : ℝ) - 5576) / 284 := by
    have hD : (0 : ℝ) ≤ (y : ℝ) - 5576 := by linarith
    have hl2pos : (0 : ℝ) < Real.log 2 := (Real.log_pos (by norm_num))
    have hrewrite : 6 * (((y : ℝ) / 5576 - 1) / Real.log 2) =
        ((y : ℝ) - 5576) * (6 / (5576 * Real.log 2)) := by
      field_simp
      ring
    have hfrac : 6 / (5576 * Real.log 2) ≤ 1 / 284 := by
      rw [div_le_div_iff (by positivity) (by norm_num)]
      nlinarith
    calc 6 * (((y : ℝ) / 5576 - 1) / Real.log 2)
        = ((y : ℝ) - 5576) * (6 / (5576 * Real.log 2)) := hrewrite
      _ ≤ ((y : ℝ) - 5576) * (1 / 284) := mul_le_mul_of_nonneg_left hfrac hD
      _ = ((y : ℝ) - 5576) / 284 := by ring
  linarith

open Classical in
lemma foldl_keep_of_none {l : List Nat} (h : ∀ y ∈ l, ¬ sqrtLog2Cond y) :
    ∀ acc : Nat, l.foldl (fun best y => if sqrtLog2Cond y then y else best) acc = acc := by
  induction l with
  | nil => intro acc; rfl
  | cons a l ih =>
    intro acc
    rw [List.foldl_cons, if_neg (h a (by simp))]
    exact ih (fun y hy => h y (by simp [hy])) acc

open Classical in
lemma largest_eq_5575 : largest_y_with_sqrt_lt_6log2 20000 = 5575 := by
  unfold largest_y_with_sqrt_lt_6log2
  have h1 : List.range' 2 5573 ++ List.range' 5575 1 = List.range' 2 5574 := by
    have h := List.range'_append 2 5573 1 1
    norm_num at h
    exact h
  have h2 : List.range' 2 5574 ++ List.range' 5576 14425 = List.range' 2 19999 := by
    have h := List.range'_append 2 5574 14425 1
    norm_num at h
    exact h
  have hsplit : List.range' 2 (20000 - 1) =
      (List.range' 2 5573 ++ [5575]) ++ List.range' 5576 14425 := by
    rw [show List.range' 5575 1 = [5575] from rfl] at h1
    rw [h1, h2]
  rw [hsplit, List.foldl_append, List.foldl_append]
  rw [show ∀ acc : Nat, List.foldl (fun best y => if sqrtLog2Cond y then y else best) acc [5575] =
      if sqrtLog2Cond 5575 then 5575 else acc from fun acc => rfl]
  rw [if_pos sqrtLog2Cond_5575]
  exact foldl_keep_of_none
    (fun y hy => by
      rw [List.mem_range'_1] at hy
      exact not_sqrtLog2Cond (by omega) (by omega)) 5575

lemma n7_m_max_def : ∀ y, n7_m_max y = Nat.log2 (7 * y ^ 6) + 1 := fun _ => rfl

lemma n7_m_max_5575 : n7_m_max 5575 = 78 := by
  rw [n7_m_max_def 5575]
  have h77 : Nat.log 2 (7 * 5575 ^ 6) = 77 :=
    Nat.log_eq_of_pow_le_of_lt_pow (by norm_num) (by norm_num)
  rw [Nat.log2_eq_log_two, h77]

lemma n7_selfcheck_5575 : n7_selfcheck 5575 = none := by
  unfold n7_selfcheck
  rw [if_neg (by omega), if_neg (by rw [n7_m_max_5575]; omega)]

lemma check_n7_eq : check_n7_div_regime = Except.ok (n7_solutions 5575 78) := by
  unfold check_n7_div_regime
  rw [largest_eq_5575, n7_selfcheck_5575, n7_m_max_5575]

/-! ### Claim theorems -/

set_option maxRecDepth 1000000 in
lemma pow_fact3 : (7 : Nat) ^ 31 < (1 + 1) * 2 ^ 600 := by norm_num

/-- C1: every tuple (x, y, m, n) returned by any of the three regime drivers
satisfies R(x, m) = R(y, n) exactly, with R computed in unbounded-precision
arithmetic; moreover the finite-case driver's incrementally grown value
follows the exact recurrence R(x, m+1) = R(x, m) * x + 1 (for x >= 2), so its
`val == target` acceptance is an exact confirmation. -/
theorem C1_all_outputs_exact :
    (check_nondiv_regime.all fun t => repunit t.1 t.2.2.1 == repunit t.2.1 t.2.2.2) = true ∧
    (check_div_finite_cases.all fun t => repunit t.1 t.2.2.1 == repunit t.2.1 t.2.2.2) = true ∧
    ((n7_solutions 5575 78).all fun t => repunit t.1 t.2.2.1 == repunit t.2.1 t.2.2.2) = true ∧
    check_n7_div_regime = Except.ok (n7_solutions 5575 78) ∧
    (∀ x m : Nat, 2 ≤ x → repunit x (m + 1) = repunit x m * x + 1) := by
  refine ⟨?_, ?_, ?_, check_n7_eq, ?_⟩
  · rw [List.all_eq_true]
    rintro ⟨x, y, m, n⟩ ht
    rw [mem_check_nondiv] at ht
    simp only [beq_iff_eq]
    exact ht.2.2.2.2.2.2.2.2.2.2.2
  · rw [List.all_eq_true]
    rintro ⟨x, y, m, n⟩ ht
    simp only [beq_iff_eq]
    exact (mem_check_div_finite ht).2.2.2.2
  · rw [List.all_eq_true]
    rintro ⟨x, y, m, n⟩ ht
    rw [mem_n7_solutions] at ht
    simp only [beq_iff_eq]
    obtain ⟨rfl, ht⟩ := ht
    exact ht.2.2.2.2.2.2.2.2.2
  · intro x m hx
    rw [repunit_eq_repuSum x (m + 1) hx, repunit_eq_repuSum x m hx]
    rfl

/-- Witness for C1: the recurrence conjunct at x = 2, m = 4
(R(2, 5) = 31 = 15 * 2 + 1). -/
theorem C1_witness : repunit 2 5 = repunit 2 4 * 2 + 1 :=
  C1_all_outputs_exact.2.2.2.2 2 4 (by decide)

/-- C2 (filter soundness, no false negatives): for x, y, m, n inside the
ranges covered by the residue tables of the sieve-join regime, if
R(x, m) = R(y, n) then the packed 64-bit key of (x, m) read off the MOD1/MOD2
tables equals the packed key of (y, n). -/
theorem C2_filter_soundness (x y m n : Nat) (hx2 : 2 ≤ x) (hx : x ≤ 315)
    (hy3 : 3 ≤ y) (hy : y ≤ 316) (hm5 : 5 ≤ m) (hm : m ≤ 4197)
    (hn4 : 4 ≤ n) (hn : n ≤ 503) (heq : repunit x m = repunit y n) :
    tableKey (List.range' 2 (315 + 1 - 2)) 4197 m (x - 2) =
      tableKey (List.range' 3 (316 + 1 - 3)) 503 n (y - 3) := by
  rw [xsKey_eq hx2 hx (by omega) hm, ynKey_eq hy3 hy (by omega) hn]
  refine keyOf_congr ?_
  rw [← repunit_eq_repuSum x m hx2, ← repunit_eq_repuSum y n (by omega), heq]

/-- Witness for C2 at (x, m) = (3, 5), (y, n) = (3, 5). -/
theorem C2_witness :
    tableKey (List.range' 2 (315 + 1 - 2)) 4197 5 1 =
      tableKey (List.range' 3 (316 + 1 - 3)) 503 5 0 :=
  C2_filter_soundness 3 3 5 5 (by decide) (by decide) (by decide) (by decide)
    (by decide) (by decide) (by decide) (by decide) rfl

/-- C3 (residue recurrence correctness): for any base array, either modulus,
and any length 1 <= t <= max_t, entry i of row t of the table built by
`build_repunit_tables` is R(base_i, t) mod M, provided base_i fits the
overflow-free uint64 range (base_i <= 2^32). -/
theorem C3_residue_tables (bases : List Nat) (mod max_t t i b : Nat)
    (hmod : mod = MOD1 ∨ mod = MOD2) (ht1 : 1 ≤ t) (ht : t ≤ max_t)
    (hb : bases[i]? = some b) (hb2 : 2 ≤ b) (hb32 : b ≤ 2 ^ 32) :
    ((build_repunit_tables bases max_t mod).getD (t - 1) []).getD i 0 = repunit b t % mod := by
  have hmodb : 0 < mod ∧ mod ≤ 2 ^ 32 := by
    rcases hmod with rfl | rfl
    · unfold MOD1
      omega
    · unfold MOD2
      omega
  rw [build_repunit_tables_row bases max_t mod t (by omega)]
  have he := rowAt_getElem? hb hb32 hmodb.1 hmodb.2 (t - 1)
  rw [List.getD_eq_getElem?_getD, he, repunit_eq_repuSum b t hb2]
  simp only [Option.getD_some]
  have htt : t - 1 + 1 = t := by omega
  rw [htt]

/-- Witness for C3: the table over bases [2, 3] with max_t = 3 and modulus
MOD1 at t = 2, i = 1. -/
theorem C3_witness :
    ((build_repunit_tables [2, 3] 3 MOD1).getD (2 - 1) []).getD 1 0 = repunit 3 2 % MOD1 :=
  C3_residue_tables [2, 3] MOD1 3 2 1 3 (Or.inl rfl) (by decide) (by decide) rfl
    (by decide) (by decide)

/-- C4 (non-divisibility regime characterization): `check_nondiv_regime`
returns exactly the tuples (x, y, m, n) with x in [2,315], y in [3,316],
m in [5,4197], n in [4,503], x < y, n < m, (m-1) mod (n-1) != 0 and
R(x, m) = R(y, n). -/
theorem C4_nondiv_characterization : ∀ x y m n : Nat,
    (x, y, m, n) ∈ check_nondiv_regime ↔
      (2 ≤ x ∧ x ≤ 315 ∧ 3 ≤ y ∧ y ≤ 316 ∧ 5 ≤ m ∧ m ≤ 4197 ∧ 4 ≤ n ∧ n ≤ 503 ∧
       x < y ∧ n < m ∧ (m - 1) % (n - 1) ≠ 0 ∧ repunit x m = repunit y n) :=
  fun _ _ _ _ => mem_check_nondiv

/-- C5 (n = 7 regime characterization): the self-checks pass, and
`check_n7_div_regime` returns exactly the tuples (x, y, m, 7) with
x in [2, 5575), y in [3, 5575], m in the valid set (13 <= m <= 73 with
(m-1) mod 6 = 0), x < y, 7 < m and R(x, m) = R(y, 7), matched by exact
repunit value buckets. -/
theorem C5_n7_characterization :
    check_n7_div_regime = Except.ok (n7_solutions 5575 78) ∧
    ∀ x y m n : Nat, ((x, y, m, n) ∈ n7_solutions 5575 78 ↔
      (n = 7 ∧ 2 ≤ x ∧ x < 5575 ∧ 3 ≤ y ∧ y ≤ 5575 ∧ 13 ≤ m ∧ m ≤ 73 ∧
       (m - 1) % 6 = 0 ∧ x < y ∧ 7 < m ∧ repunit x m = repunit y 7)) :=
  ⟨check_n7_eq, fun _ _ _ _ => mem_n7_solutions⟩

/-- C6 (ordering and side-constraint invariants): every emitted tuple of the
three drivers satisfies x < y and n < m; the non-divisibility regime
additionally has (m-1) mod (n-1) != 0 and the finite-case and n = 7 regimes
have (m-1) mod (n-1) = 0. -/
theorem C6_output_invariants :
    (check_nondiv_regime.all fun t =>
      decide (t.1 < t.2.1) && decide (t.2.2.2 < t.2.2.1) &&
        decide ((t.2.2.1 - 1) % (t.2.2.2 - 1) ≠ 0)) = true ∧
    (check_div_finite_cases.all fun t =>
      decide (t.1 < t.2.1) && decide (t.2.2.2 < t.2.2.1) &&
        decide ((t.2.2.1 - 1) % (t.2.2.2 - 1) = 0)) = true ∧
    ((n7_solutions 5575 78).all fun t =>
      decide (t.1 < t.2.1) && decide (t.2.2.2 < t.2.2.1) &&
        decide ((t.2.2.1 - 1) % (t.2.2.2 - 1) = 0)) = true ∧
    check_n7_div_regime = Except.ok (n7_solutions 5575 78) := by
  refine ⟨?_, ?_, ?_, check_n7_eq⟩
  · rw [List.all_eq_true]
    rintro ⟨x, y, m, n⟩ ht
    rw [mem_check_nondiv] at ht
    obtain ⟨_, _, _, _, _, _, _, _, hxy, hnm, hmd, _⟩ := ht
    simp only [Bool.and_eq_true, decide_eq_true_eq]
    exact ⟨⟨hxy, hnm⟩, hmd⟩
  · rw [List.all_eq_true]
    rintro ⟨x, y, m, n⟩ ht
    obtain ⟨_, hxy, hnm, hmd, _⟩ := mem_check_div_finite ht
    simp only [Bool.and_eq_true, decide_eq_true_eq]
    exact ⟨⟨hxy, hnm⟩, hmd⟩
  · rw [List.all_eq_true]
    rintro ⟨x, y, m, n⟩ ht
    rw [mem_n7_solutions] at ht
    obtain ⟨rfl, _, _, _, _, _, _, hmd, hxy, h7m, _⟩ := ht
    simp only [Bool.and_eq_true, decide_eq_true_eq]
    exact ⟨⟨hxy, h7m⟩, by omega⟩

/-- C7 (threshold determinism): `largest_y_with_sqrt_lt_6log2 20000` returns
5575, which is the largest y <= 20000 with sqrt(y) < 6 log2(y); and the
derived bound m_max for that y_max equals 78. -/
theorem C7_threshold_constants :
    largest_y_with_sqrt_lt_6log2 20000 = 5575 ∧
    sqrtLog2Cond 5575 ∧
    (∀ y : Nat, 5575 < y → y ≤ 20000 → ¬ sqrtLog2Cond y) ∧
    n7_m_max 5575 = 78 :=
  ⟨largest_eq_5575, sqrtLog2Cond_5575,
    fun _ h1 h2 => not_sqrtLog2Cond (by omega) h2, n7_m_max_5575⟩

/-- Witness for C7: the maximality conjunct applied at y = 20000. -/
theorem C7_witness : ¬ sqrtLog2Cond 20000 :=
  C7_threshold_constants.2.2.1 20000 (by decide) (by decide)

/-- Counterexample for C8 as stated: when the computed y_max drifts (modelled
input 0), the raised message reports only the computed value; the expected
literal 5575 does not occur in it. -/
theorem C8_counterexample :
    n7_selfcheck 0 = some "unexpected threshold y_max=0" ∧
    ¬ ("5575".data <:+: "unexpected threshold y_max=0".data) := by
  constructor
  · decide
  · decide

/-- C8 (amended): the self-check of the n = 7 regime errors out exactly when
the computed y_max differs from 5575 or the computed m_max differs from 78,
the surfaced message reports the computed value (it does not include the
expected literal), and on the actual computed constants no error is raised. -/
theorem C8_selfcheck_behaviour :
    (∀ v : Nat, n7_selfcheck v = none ↔ (v = 5575 ∧ n7_m_max v = 78)) ∧
    (∀ v : Nat, ∀ msg : String, n7_selfcheck v = some msg →
      msg = "unexpected threshold y_max=" ++ toString v ∨
      msg = "unexpected m_max=" ++ toString (n7_m_max v)) ∧
    check_n7_div_regime = Except.ok (n7_solutions 5575 78) := by
  refine ⟨?_, ?_, check_n7_eq⟩
  · intro v
    constructor
    · intro h
      unfold n7_selfcheck at h
      by_cases h1 : v ≠ 5575
      · rw [if_pos h1] at h
        exact absurd h (by simp)
      · rw [if_neg h1] at h
        by_cases h2 : n7_m_max v ≠ 78
        · rw [if_pos h2] at h
          exact absurd h (by simp)
        · exact ⟨not_not.mp h1, not_not.mp h2⟩
    · rintro ⟨rfl, _⟩
      exact n7_selfcheck_5575
  · intro v msg h
    unfold n7_selfcheck at h
    by_cases h1 : v ≠ 5575
    · rw [if_pos h1] at h
      simp only [Option.some.injEq] at h
      exact Or.inl h.symm
    · rw [if_neg h1] at h
      by_cases h2 : n7_m_max v ≠ 78
      · rw [if_pos h2] at h
        simp only [Option.some.injEq] at h
        exact Or.inr h.symm
      · rw [if_neg h2] at h
        exact absurd h (by simp)

/-- Witness for C8: the message shape at the drifted input 0. -/
theorem C8_witness :
    "unexpected threshold y_max=0" = "unexpected threshold y_max=" ++ toString (0 : Nat) ∨
    "unexpected threshold y_max=0" = "unexpected m_max=" ++ toString (n7_m_max 0) :=
  C8_selfcheck_behaviour.2.1 0 "unexpected threshold y_max=0" (by decide)

set_option maxRecDepth 1000000 in
/-- C9 (finite-case driver termination): for every configured case (k, y) and
every x in [2, y), the incremental growth loop exits on its own (value match,
val >= target, or the 512-step cap) within the provided fuel: it never runs
unboundedly. -/
theorem C9_finite_cases_terminate (k y x : Nat) (hc : (k, y) ∈ div_cases)
    (hx2 : 2 ≤ x) (_hxy : x < y) :
    growLoop x (repunit y (k + 1)) (k + 1) k growFuel 1 1 ≠ none := by
  have hcb := div_cases_bound (k, y) hc
  have htb : repunit y (k + 1) ≤ 7 ^ 31 := by
    calc repunit y (k + 1) ≤ y ^ (k + 1) := repunit_le y (k + 1)
      _ ≤ 7 ^ (k + 1) := Nat.pow_le_pow_left hcb.1 (k + 1)
      _ ≤ 7 ^ 31 := Nat.pow_le_pow_right (by omega) (by omega)
  apply growLoop_ne_none hx2
  show repunit y (k + 1) < (1 + 1) * 2 ^ 600
  exact lt_of_le_of_lt htb pow_fact3

/-- Witness for C9 at the case (k, y) = (13, 3) with x = 2. -/
theorem C9_witness : growLoop 2 (repunit 3 (13 + 1)) (13 + 1) 13 growFuel 1 1 ≠ none :=
  C9_finite_cases_terminate 13 3 2 (by decide) (by decide) (by decide)

/-- C10 (implicit bucket invariant of the n = 7 regime): every pair (x, m)
stored in any exact-value bucket has m in the valid set, so the emission-time
filters (m-1) mod 6 = 0 and n < m (n = 7) always hold for bucketed pairs;
only x < y can reject a bucket hit. -/
theorem C10_bucket_invariant : ∀ v : Nat,
    ((by_value 5575 78 v).all fun p =>
      decide ((p.2 - 1) % 6 = 0) && decide (13 ≤ p.2) && decide (p.2 ≤ 73) &&
        decide (7 < p.2)) = true := by
  intro v
  rw [List.all_eq_true]
  rintro ⟨x, m⟩ hp
  rw [mem_by_value] at hp
  have hpair := mem_n7_pairs.mp hp.1
  have hm := mem_valid_ms.mp hpair.2.2
  simp only [Bool.and_eq_true, decide_eq_true_eq]
  exact ⟨⟨⟨hm.1, hm.2.1⟩, hm.2.2⟩, by omega⟩

end Goormaghtigh
